import Mathlib

/-!
Verification development for the event-aggregation pipeline
(`eventsearch`): a shallow embedding, in Lean 4, of the pure core of
`orchestrate_event_extraction.py` (name normalization, event identity,
merge engine, date/section parsing) and `enrich_descriptions.py`
(description extraction cascade and description formatter), together
with theorems settling the specified properties.

Modelling conventions:
* Python strings are modelled as `String` / `List Char`; machine work on
  characters uses explicit ASCII predicates.  Character classes of the
  regexes (`\w`, `\s`) and case folding (`str.lower`) are modelled on the
  ASCII fragment; every concrete input used in a theorem below is ASCII
  or uses characters on which the model and Python agree.
* Python dict event records carry a fixed field set here (`EvField`);
  a missing key and an empty string are identified, matching how the
  source only ever tests truthiness (`if value`, `if not event.get(k)`).
* `re` searches are modelled by hand as leftmost-match scanners that
  follow the concrete patterns of the source, including greedy /
  lazy behaviour where it is observable.
* Fallible collaborators (the translator) are a `String → Option String`
  parameter: `none` models the exception path that the source catches.
-/

/-! ## Character and list utilities -/

/-- ASCII fragment of the regex class `\s` used by Python
(space, tab, newline, carriage return, vertical tab, form feed). -/
def isWs (c : Char) : Bool :=
  c = ' ' || c = '\t' || c = '\n' || c = '\r' || c = '\x0b' || c = '\x0c'

/-- ASCII fragment of the regex class `\w` (alphanumeric or underscore). -/
def isWordChar (c : Char) : Bool :=
  c.isAlphanum || c = '_'

/-- ASCII case folding, as in `str.lower` restricted to ASCII. -/
def lc (cs : List Char) : List Char := cs.map Char.toLower

/-- `isPre pat s`: `s` starts with `pat`. -/
def isPre : List Char → List Char → Bool
  | [], _ => true
  | _ :: _, [] => false
  | a :: as, b :: bs => a = b && isPre as bs

/-- `isSub pat s`: `pat` occurs as a contiguous substring of `s`
(Python `pat in s`). -/
def isSub (pat : List Char) : List Char → Bool
  | [] => pat.isEmpty
  | c :: cs => isPre pat (c :: cs) || isSub pat cs

/-- Remove trailing whitespace (structural version of `str.rstrip`). -/
def stripRight : List Char → List Char
  | [] => []
  | c :: cs =>
    match stripRight cs with
    | [] => if isWs c then [] else [c]
    | r => c :: r

/-- Python `str.strip()`. -/
def pyStrip (cs : List Char) : List Char :=
  stripRight (cs.dropWhile isWs)

/-- `re.sub(r'\s+', ' ', s)`: replace every maximal whitespace run with a
single space.  The flag records whether the previous character was part
of a whitespace run. -/
def subWsAux : List Char → Bool → List Char
  | [], _ => []
  | c :: cs, inRun =>
    if isWs c then
      if inRun then subWsAux cs true else ' ' :: subWsAux cs true
    else c :: subWsAux cs false

def subWs (cs : List Char) : List Char := subWsAux cs false

/-- Split at every character satisfying `p`, keeping empty pieces
(the behaviour of Python `str.split(sep)` for a one-character separator;
for splitting on a character *class* the source always filters the empty
pieces away afterwards, which makes this coincide with `re.split` on a
`+`-quantified class). -/
def splitOnPredAux (p : Char → Bool) : List Char → List Char → List (List Char)
  | [], cur => [cur.reverse]
  | c :: cs, cur =>
    if p c then cur.reverse :: splitOnPredAux p cs []
    else splitOnPredAux p cs (c :: cur)

def splitOnPred (p : Char → Bool) (cs : List Char) : List (List Char) :=
  splitOnPredAux p cs []

/-- Python `str.split('\n')`. -/
def splitNl (cs : List Char) : List (List Char) := splitOnPred (· = '\n') cs

/-- Whitespace tokenization, Python `str.split()` with no argument:
maximal non-whitespace runs, empty pieces dropped.  `cur` is the
(reversed) token currently being read. -/
def wordsAux : List Char → List Char → List (List Char)
  | [], cur => if cur.isEmpty then [] else [cur.reverse]
  | c :: cs, cur =>
    if isWs c then
      if cur.isEmpty then wordsAux cs [] else cur.reverse :: wordsAux cs []
    else wordsAux cs (c :: cur)

def words (cs : List Char) : List (List Char) := wordsAux cs []

/-- `sep.join(parts)` on character lists. -/
def joinL (sep : List Char) : List (List Char) → List Char
  | [] => []
  | [t] => t
  | t :: ts => t ++ sep ++ joinL sep ts

/-- First `some` produced by `f` along a list. -/
def firstSome {α β : Type} (f : α → Option β) : List α → Option β
  | [] => none
  | a :: as =>
    match f a with
    | some b => some b
    | none => firstSome f as

/-- `if len(s) > limit: s = s[:cut] + "..."` -/
def truncateTo (limit cut : Nat) (cs : List Char) : List Char :=
  if limit < cs.length then cs.take cut ++ ("...".toList) else cs

/-! ## Event records

The unit of truth of the catalog.  The Python source stores events as
dicts; the fields below are the keys the repository ever writes.  A key
that is absent is identified with the empty string: the source only ever
reads fields through `event.get(k, '')` or tests them for truthiness. -/

inductive EvField : Type
  | name | date | venueName | time | address | price | description
  | ticketLink | instagram | imageUrl | source
deriving DecidableEq

structure Event where
  name : String := ""
  date : String := ""
  venueName : String := ""
  time : String := ""
  address : String := ""
  price : String := ""
  description : String := ""
  ticketLink : String := ""
  instagram : String := ""
  imageUrl : String := ""
  source : String := ""
deriving DecidableEq

instance : Inhabited Event := ⟨{}⟩

def getField (e : Event) : EvField → String
  | .name => e.name
  | .date => e.date
  | .venueName => e.venueName
  | .time => e.time
  | .address => e.address
  | .price => e.price
  | .description => e.description
  | .ticketLink => e.ticketLink
  | .instagram => e.instagram
  | .imageUrl => e.imageUrl
  | .source => e.source

/-! ## `normalize_event_name` (orchestrate_event_extraction.py, lines 14-21)

Python: lowercase, delete every character outside `[\w\s]`, collapse
whitespace runs to single spaces, strip.  Collapsing-and-stripping is
realized as joining the whitespace-separated tokens with single
spaces, which produces the identical string. -/

def normTokens (name : String) : List (List Char) :=
  words ((lc name.toList).filter (fun c => isWordChar c || isWs c))

def normalize_event_name (name : String) : String :=
  (joinL [' '] (normTokens name)).asString

/-! ## `events_match` (orchestrate_event_extraction.py, lines 23-55) -/

/-- Name-similarity part of `events_match`, applied to the two
normalized names.  The overlap test `len(w1 & w2) / max(len(w1), len(w2))
>= 0.5` on Python sets is stated exactly as `max ≤ 2 * |intersection|`
over the deduplicated token lists. -/
def nameSimilar (name1 name2 : String) : Bool :=
  if name1 ≠ "" ∧ name2 ≠ "" then
    if isSub name1.toList name2.toList || isSub name2.toList name1.toList then
      true
    else
      let words1 := (words name1.toList).dedup
      let words2 := (words name2.toList).dedup
      if words1 ≠ [] ∧ words2 ≠ [] then
        decide (max words1.length words2.length ≤
          2 * (words1.filter (fun w => w ∈ words2)).length)
      else false
  else false

/-- `date1 == date2 if date1 and date2 else False` -/
def dateEq (date1 date2 : String) : Bool :=
  if date1 ≠ "" ∧ date2 ≠ "" then decide (date1 = date2) else false

/-- `venue1 == venue2 if venue1 and venue2 else False`
(applied to normalized venue names). -/
def venueEq (venue1 venue2 : String) : Bool :=
  if venue1 ≠ "" ∧ venue2 ≠ "" then decide (venue1 = venue2) else false

def events_match (event1 event2 : Event) : Bool :=
  nameSimilar (normalize_event_name event1.name) (normalize_event_name event2.name) &&
    (dateEq event1.date event2.date ||
      venueEq (normalize_event_name event1.venueName) (normalize_event_name event2.venueName))

/-! ## `merge_events` (orchestrate_event_extraction.py, lines 302-324) -/

/-- One field of the fill-missing update: copy the new value only when it
is truthy and the existing one is falsy. -/
def fillField (ex nw : String) : String :=
  if nw ≠ "" ∧ ex = "" then nw else ex

/-- `for key, value in new_event.items(): if value and not
existing_event.get(key): existing_event[key] = value` -/
def updateEvent (existing newE : Event) : Event :=
  { name := fillField existing.name newE.name
    date := fillField existing.date newE.date
    venueName := fillField existing.venueName newE.venueName
    time := fillField existing.time newE.time
    address := fillField existing.address newE.address
    price := fillField existing.price newE.price
    description := fillField existing.description newE.description
    ticketLink := fillField existing.ticketLink newE.ticketLink
    instagram := fillField existing.instagram newE.instagram
    imageUrl := fillField existing.imageUrl newE.imageUrl
    source := fillField existing.source newE.source }

/-- Fold one new event into the accumulated catalog: first existing
record matching it (in order) absorbs its missing fields; with no match
the new record is appended at the end. -/
def insertEvent (newE : Event) : List Event → List Event
  | [] => [newE]
  | e :: rest =>
    if events_match newE e then updateEvent e newE :: rest
    else e :: insertEvent newE rest

def merge_events (existing_events new_events : List Event) : List Event :=
  new_events.foldl (fun acc n => insertEvent n acc) existing_events

/-- `ExtendsE e e'`: `e'` coincides with `e` on every field that is set
on `e` (it may additionally fill fields that were empty). -/
def ExtendsE (e e' : Event) : Prop :=
  ∀ f : EvField, getField e f ≠ "" → getField e' f = getField e f


/-! ## `parse_date_from_section` (orchestrate_event_extraction.py, lines 57-91)

The source reads the current date through `datetime.now()`; the embedding
passes it explicitly as `today` (the reference date of the claims). -/

structure Date where
  year : Nat
  month : Nat
  day : Nat
deriving DecidableEq

def leapYear (y : Nat) : Bool :=
  y % 4 = 0 && (y % 100 ≠ 0 || y % 400 = 0)

def daysInMonth (y m : Nat) : Nat :=
  if m = 2 then (if leapYear y then 29 else 28)
  else if m = 4 ∨ m = 6 ∨ m = 9 ∨ m = 11 then 30
  else 31

/-- `datetime(year, month, day)` succeeds exactly when the day fits the
month (the month always comes from the lookup table, hence is in 1..12). -/
def validDate (y m d : Nat) : Bool :=
  1 ≤ d && d ≤ daysInMonth y m

def digitChar (n : Nat) : Char := Char.ofNat (48 + n)

/-- `%m` / `%d`: zero-padded two-digit field. -/
def pad2 (n : Nat) : List Char := [digitChar (n / 10 % 10), digitChar (n % 10)]

/-- `%Y` for the four-digit years arising here. -/
def pad4 (n : Nat) : List Char :=
  [digitChar (n / 1000 % 10), digitChar (n / 100 % 10),
    digitChar (n / 10 % 10), digitChar (n % 10)]

/-- `strftime('%Y-%m-%d')` -/
def fmtDate (y m d : Nat) : String :=
  (pad4 y ++ ['-'] ++ pad2 m ++ ['-'] ++ pad2 d).asString

/-- `today + timedelta(days=1)` -/
def nextDay (t : Date) : Date :=
  if t.day < daysInMonth t.year t.month then ⟨t.year, t.month, t.day + 1⟩
  else if t.month < 12 then ⟨t.year, t.month + 1, 1⟩
  else ⟨t.year + 1, 1, 1⟩

def monthsFr : List (List Char × Nat) :=
  [("janvier".toList, 1), ("février".toList, 2), ("mars".toList, 3),
   ("avril".toList, 4), ("mai".toList, 5), ("juin".toList, 6),
   ("juillet".toList, 7), ("août".toList, 8), ("septembre".toList, 9),
   ("octobre".toList, 10), ("novembre".toList, 11), ("décembre".toList, 12)]

def monthAt (s : List Char) : Option Nat :=
  firstSome (fun (p : List Char × Nat) => if isPre p.1 s then some p.2 else none) monthsFr

def natOfDigits (ds : List Char) : Nat :=
  ds.foldl (fun n c => 10 * n + (c.toNat - 48)) 0

/-- One anchored attempt of `(\d+)\s+(janvier|...|décembre)` (on the
lowercased text): a nonempty digit run, a nonempty whitespace run, then a
month name.  Greedy backtracking cannot shorten the runs (a digit is not
`\s`, whitespace starts no month name), so the maximal runs are faithful. -/
def dayMonthAt (s : List Char) : Option (Nat × Nat) :=
  let ds := s.takeWhile Char.isDigit
  if ds.isEmpty then none
  else
    let rest := s.dropWhile Char.isDigit
    if (rest.takeWhile isWs).isEmpty then none
    else
      match monthAt (rest.dropWhile isWs) with
      | some m => some (natOfDigits ds, m)
      | none => none

/-- `re.search`: leftmost position where the day-month pattern matches. -/
def findDayMonth : List Char → Option (Nat × Nat)
  | [] => none
  | c :: cs =>
    match dayMonthAt (c :: cs) with
    | some r => some r
    | none => findDayMonth cs

def parse_date_from_section (today : Date) (date_section : String) : Option String :=
  if date_section = "" then none
  else
    let low := lc date_section.toList
    if isSub "aujourd\x27hui".toList low || isSub "today".toList low then
      some (fmtDate today.year today.month today.day)
    else if isSub "demain".toList low || isSub "tomorrow".toList low then
      let t := nextDay today
      some (fmtDate t.year t.month t.day)
    else
      match findDayMonth low with
      | some (day, month) =>
        let year :=
          if month < today.month ∨ (month = today.month ∧ day < today.day) then
            today.year + 1
          else today.year
        if validDate year month day then some (fmtDate year month day) else none
      | none => none


/-! ## Description formatter: `parse_and_format_description`
(enrich_descriptions.py, lines 329-418)

The two section regexes
`(mainstage|playstage|line.?up|line-up|artists?|djs?)[:\s]+(.*?)(?=...)` and
`(dress.?code|tenue|code vestimentaire)[:\s]+(.*?)(?=...)`
(flags IGNORECASE and DOTALL) are modelled as leftmost scanners: an
alternation token matches at a position when some alternative (tried in
regex order, with greedy `.?` / `s?` variants first) is followed by at
least one `[:\s]` character (the mandatory `[:\s]+`); the greedy `[:\s]+`
then takes the maximal run, and the lazy `(.*?)` extends to the first
position where the lookahead alternation (or `$`) matches. -/

def colonWs (c : Char) : Bool := c = ':' || isWs c

/-- `pre` + any single character (DOTALL `.`) + `post` matches at `s`. -/
def dotVar (pre post : List Char) (s : List Char) : Bool :=
  isPre pre s &&
    (match s.drop pre.length with
     | _ :: rest => isPre post rest
     | [] => false)

/-- The mandatory `[:\s]+` has at least one character after a token of
length `len`. -/
def followedByColonWs (s : List Char) (len : Nat) : Bool :=
  match s.drop len with
  | [] => false
  | c :: _ => colonWs c

/-- Token alternation of the lineup regex at a position (lowercased
text); returns the matched token length. -/
def lineupTokLen (s : List Char) : Option Nat :=
  if isPre "mainstage".toList s && followedByColonWs s 9 then some 9
  else if isPre "playstage".toList s && followedByColonWs s 9 then some 9
  else if dotVar "line".toList "up".toList s && followedByColonWs s 7 then some 7
  else if isPre "lineup".toList s && followedByColonWs s 6 then some 6
  else if isPre "line-up".toList s && followedByColonWs s 7 then some 7
  else if isPre "artists".toList s && followedByColonWs s 7 then some 7
  else if isPre "artist".toList s && followedByColonWs s 6 then some 6
  else if isPre "djs".toList s && followedByColonWs s 3 then some 3
  else if isPre "dj".toList s && followedByColonWs s 2 then some 2
  else none

/-- Token alternation of the dress-code regex at a position. -/
def dressTokLen (s : List Char) : Option Nat :=
  if dotVar "dress".toList "code".toList s && followedByColonWs s 10 then some 10
  else if isPre "dresscode".toList s && followedByColonWs s 9 then some 9
  else if isPre "tenue".toList s && followedByColonWs s 5 then some 5
  else if isPre "code vestimentaire".toList s && followedByColonWs s 18 then some 18
  else none

/-- Lookahead alternation of the lineup regex:
`(?=\n\n|dress|code|vestiaire|info|pratique|consentement|$)`. -/
def lineupLook : List (List Char) :=
  ["\n\n".toList, "dress".toList, "code".toList, "vestiaire".toList,
   "info".toList, "pratique".toList, "consentement".toList]

/-- Lookahead alternation of the dress-code regex:
`(?=\n\n|vestiaire|info|pratique|consentement|$)`. -/
def dressLook : List (List Char) :=
  ["\n\n".toList, "vestiaire".toList, "info".toList, "pratique".toList,
   "consentement".toList]

/-- `$` without MULTILINE: end of text, or just before a final newline.
`s` is the remaining suffix. -/
def dollarAt (s : List Char) : Bool := s.isEmpty || s = ['\n']

/-- Length the lazy `(.*?)` reaches before the lookahead (or `$`) first
matches. -/
def lazyLen (look : List (List Char)) : List Char → Nat
  | [] => 0
  | c :: cs =>
    if look.any (fun k => isPre k (c :: cs)) || dollarAt (c :: cs) then 0
    else 1 + lazyLen look cs

/-- Leftmost token match: `(index, token length)`. -/
def findTok (tokLen : List Char → Option Nat) : List Char → Option (Nat × Nat)
  | [] => none
  | c :: cs =>
    match tokLen (c :: cs) with
    | some L => some (0, L)
    | none => (findTok tokLen cs).map (fun r => (r.1 + 1, r.2))

/-- A section match: start of the whole match and the `group(2)` text. -/
structure SecMatch where
  start : Nat
  content : List Char
deriving DecidableEq

/-- `re.search` of a section regex over `orig` (match positions computed
on the lowercased copy, content sliced from the original, as Python
returns original-case text). -/
def findSec (tokLen : List Char → Option Nat) (look : List (List Char))
    (orig : List Char) : Option SecMatch :=
  let low := lc orig
  match findTok tokLen low with
  | none => none
  | some (i, L) =>
    let run := ((low.drop (i + L)).takeWhile colonWs).length
    let contentStart := i + L + run
    let len := lazyLen look (low.drop contentStart)
    some ⟨i, (orig.drop contentStart).take len⟩

/-- `re.sub(r'https?://[^\s]+', '', ...)`: match length at a position
(the `[^\s]+` needs at least one non-whitespace character). -/
def urlLen (s : List Char) : Option Nat :=
  if isPre "https://".toList s then
    let r := ((s.drop 8).takeWhile (fun c => !(isWs c))).length
    if r = 0 then none else some (8 + r)
  else if isPre "http://".toList s then
    let r := ((s.drop 7).takeWhile (fun c => !(isWs c))).length
    if r = 0 then none else some (7 + r)
  else none

/-- `re.sub(r'@[\w.]+', '', ...)`: match length at a position. -/
def handleLen (s : List Char) : Option Nat :=
  match s with
  | '@' :: rest =>
    let r := (rest.takeWhile (fun c => isWordChar c || c = '.')).length
    if r = 0 then none else some (1 + r)
  | _ => none

/-- `re.sub(pat, '', s)`: delete every (leftmost, non-overlapping) match.
The fuel is the remaining length; every reported match has length ≥ 1. -/
def removeAllAux (matchLen : List Char → Option Nat) : Nat → List Char → List Char
  | 0, _ => []
  | _, [] => []
  | fuel + 1, c :: cs =>
    match matchLen (c :: cs) with
    | some L => removeAllAux matchLen fuel ((c :: cs).drop L)
    | none => c :: removeAllAux matchLen fuel cs

def removeAll (matchLen : List Char → Option Nat) (cs : List Char) : List Char :=
  removeAllAux matchLen cs.length cs

/-- `re.split(r'[.!?]+', s)` followed by the filter
`[s.strip() for s in sentences if s.strip() and len(s) > 10]`
(the length test is on the raw piece, the result is stripped). -/
def sentencesOf (cs : List Char) : List (List Char) :=
  ((splitOnPred (fun c => c = '.' || c = '!' || c = '?') cs).filter
      (fun s => !(pyStrip s).isEmpty && decide (10 < s.length))).map pyStrip

/-- `description_en` after translation (`none` models the caught
translation exception, falling back to the raw text) and the whitespace
cleanup `re.sub(r'\s+', ' ', ...).strip()`. -/
def descriptionEn (translator : String → Option String) (raw : String) : List Char :=
  pyStrip (subWs ((translator raw).getD raw).toList)

def lineupMatchOf (translator : String → Option String) (raw : String) : Option SecMatch :=
  findSec lineupTokLen lineupLook (descriptionEn translator raw)

def dressMatchOf (translator : String → Option String) (raw : String) : Option SecMatch :=
  findSec dressTokLen dressLook (descriptionEn translator raw)

/-- `main_desc`: the text before the earliest special section (stripped),
or the whole description when neither section was found. -/
def mainDescOf (translator : String → Option String) (raw : String) : List Char :=
  let de := descriptionEn translator raw
  match lineupMatchOf translator raw, dressMatchOf translator raw with
  | some lm, some dm => pyStrip (de.take (min lm.start dm.start))
  | some lm, none => pyStrip (de.take lm.start)
  | none, some dm => pyStrip (de.take dm.start)
  | none, none => de

/-- The formatted main summary (`main_text`): first up to three
qualifying sentences, hard-truncated to 300 characters; `[]` when no
sentence qualifies. -/
def mainTextOf (translator : String → Option String) (raw : String) : List Char :=
  if (sentencesOf (mainDescOf translator raw)).isEmpty then []
  else truncateTo 300 297 (joinL ('.' :: [' ']) ((sentencesOf (mainDescOf translator raw)).take 3))

def mainPartOf (translator : String → Option String) (raw : String) : List (List Char) :=
  if (mainTextOf translator raw).isEmpty then [] else [mainTextOf translator raw]

/-- The cleaned lineup text: strip, collapse whitespace, delete URLs and
social handles, collapse and strip again. -/
def lineupTextOf (translator : String → Option String) (raw : String) : Option (List Char) :=
  (lineupMatchOf translator raw).map (fun m =>
    pyStrip (subWs (removeAll handleLen (removeAll urlLen (subWs (pyStrip m.content))))))

def lineupPartOf (translator : String → Option String) (raw : String) : List (List Char) :=
  match lineupTextOf translator raw with
  | none => []
  | some t =>
    if !t.isEmpty && decide (20 < t.length) && decide (t.length < 500) then
      ["\n\n🎧 Lineup:\n".toList ++ t]
    else []

/-- The formatted dress-code text (`dress_text`): first up to two
qualifying sentences of the cleaned section, truncated to 200
characters; `[]` when the section is absent or no sentence qualifies. -/
def dressTextOf (translator : String → Option String) (raw : String) : List Char :=
  match dressMatchOf translator raw with
  | none => []
  | some m =>
    if (sentencesOf (subWs (pyStrip m.content))).isEmpty then []
    else truncateTo 200 197 (joinL ('.' :: [' ']) ((sentencesOf (subWs (pyStrip m.content))).take 2))

def dressPartOf (translator : String → Option String) (raw : String) : List (List Char) :=
  if (dressTextOf translator raw).isEmpty then []
  else ["\n\n👔 Dress Code: ".toList ++ dressTextOf translator raw]

def partsOf (translator : String → Option String) (raw : String) : List (List Char) :=
  mainPartOf translator raw ++ lineupPartOf translator raw ++ dressPartOf translator raw

/-- `parse_and_format_description(raw_description, ...)`:
`''.join(parts).strip()`, `None` for a falsy input or empty result. -/
def parse_and_format_description (translator : String → Option String)
    (raw : String) : Option String :=
  if raw = "" then none
  else if (pyStrip (joinL [] (partsOf translator raw))).isEmpty then none
  else some (pyStrip (joinL [] (partsOf translator raw))).asString


/-! ## Extraction cascade: `extract_description_from_page`
(enrich_descriptions.py, lines 13-273)

The page is modelled as the data the function reads from the browser
collaborator: the body text, the inner texts of all `div`s, the parsed
`ld+json` blocks, the element texts per description selector, the
section-like element texts, and the two main-content queries (the second
one adds `[class*="Event"]`), each with its paragraph texts. -/

structure Element where
  innerText : String
  paragraphs : List String
deriving DecidableEq

/-- A parsed `application/ld+json` block as the source consumes it:
either a dict (with optional `@type` and `description` entries), a list
of such dicts, or anything else.  Scripts whose `json.loads` fails are
simply absent from the list (the source skips them). -/
inductive LdJson : Type
  | dict (typ : Option String) (desc : Option String)
  | arr (items : List (Option String × Option String))
  | other

structure PageView where
  bodyText : String
  divTexts : List String
  ldBlocks : List LdJson
  selectorHits : List (List String)
  sectionTexts : List String
  mainContent : Option Element
  mainContent2 : Option Element

/-! ### Strategy 0: labeled-section regexes (lines 22-40) -/

/-- Keywords of the lookahead
`(?=\n\n[^\n]{0,30}(?:VESTIAIRE|INFO|PRATIQUE|CONSENTEMENT|PARTENAIRES)|$)`
(IGNORECASE: compared on the lowercased text). -/
def s0kws : List (List Char) :=
  ["vestiaire".toList, "info".toList, "pratique".toList,
   "consentement".toList, "partenaires".toList]

/-- `[^\n]{0,30}` then a keyword: up to `fuel` non-newline characters may
precede the keyword. -/
def kwWithin : Nat → List Char → Bool
  | fuel, s =>
    if s0kws.any (fun k => isPre k s) then true
    else
      match fuel, s with
      | 0, _ => false
      | _, [] => false
      | fuel + 1, c :: cs => if c = '\n' then false else kwWithin fuel cs

/-- The strategy-0 lookahead fires at this suffix. -/
def s0LookAt (s : List Char) : Bool :=
  (match s with
   | '\n' :: '\n' :: rest => kwWithin 30 rest
   | _ => false) || dollarAt s

def s0LazyLen : List Char → Nat
  | [] => 0
  | c :: cs => if s0LookAt (c :: cs) then 0 else 1 + s0LazyLen cs

/-- Leftmost occurrence of a literal label (on the lowercased text). -/
def findLabel (label : List Char) : List Char → Option Nat
  | [] => none
  | c :: cs =>
    if isPre label (c :: cs) then some 0
    else (findLabel label cs).map (· + 1)

/-- Delete a leading `lab[:\s]*` when the (lowercased) text starts with
one of the given label spellings, all of the same length
(`re.sub(r'^lab[:\s]*', '', s, flags=IGNORECASE)`). -/
def stripLeadLabel (labs : List (List Char)) (len : Nat) (s : List Char) : List Char :=
  if labs.any (fun lab => isPre lab (lc s)) then
    (s.drop len).dropWhile colonWs
  else s

/-- The three cleanup substitutions applied to the strategy-0 extract
(lines 35-37): `^[àa] propos[:\s]*`, `^about[:\s]*`, `^description[:\s]*`. -/
def s0Clean (s : List Char) : List Char :=
  stripLeadLabel ["description".toList] 11
    (stripLeadLabel ["about".toList] 5
      (stripLeadLabel ["à propos".toList, "a propos".toList] 8 s))

/-- One strategy-0 pattern: `(label[:\s]*.*?)(?=...)` — `colon` records
whether the label carries the `[:\s]*` (all but `Nouveauté pour`). -/
def s0Try (label : List Char) (colon : Bool) (orig : List Char) : Option String :=
  let low := lc orig
  match findLabel label low with
  | none => none
  | some i =>
    let afterLabel := i + label.length
    let run := if colon then ((low.drop afterLabel).takeWhile colonWs).length else 0
    let contentStart := afterLabel + run
    let len := s0LazyLen (low.drop contentStart)
    let extracted := s0Clean (pyStrip ((orig.drop i).take (contentStart + len - i)))
    if 200 < extracted.length then some (pyStrip extracted).asString else none

def strategy0 (bodyText : String) : Option String :=
  match s0Try "nouveauté pour".toList false bodyText.toList with
  | some r => some r
  | none =>
  match s0Try "à propos".toList true bodyText.toList with
  | some r => some r
  | none =>
  match s0Try "about".toList true bodyText.toList with
  | some r => some r
  | none => s0Try "description".toList true bodyText.toList

/-! ### Div-scoring fallback (lines 42-108) -/

def aboutKws : List (List Char) :=
  ["à propos".toList, "about".toList, "description".toList,
   "details".toList, "info".toList]

def eventKws : List (List Char) :=
  ["dj".toList, "music".toList, "scène".toList, "scene".toList,
   "stage".toList, "dress".toList, "tenue".toList, "lineup".toList,
   "line-up".toList, "mainstage".toList, "playstage".toList]

def divStopKws : List (List Char) :=
  ["vestiaire".toList, "info".toList, "pratique".toList,
   "consentement".toList, "partenaires".toList]

/-- Acceptance filter and score of one div text (lines 58-74). -/
def divScore (text : List Char) : Option Nat :=
  let tl := lc text
  let hasAbout := aboutKws.any (fun k => isSub k (tl.take 200))
  let hasEvent := eventKws.any (fun k => isSub k tl)
  if 500 < text.length ∧ text.length < 10000 ∧
      isSub "cookie".toList tl = false ∧ isSub "consent".toList tl = false ∧
      isSub "discover upcoming events".toList tl = false ∧
      (hasAbout = true ∨ hasEvent = true) then
    some (text.length + (if hasAbout then 1000 else 0) + (if hasEvent then 500 else 0))
  else none

/-- Best-scoring qualifying div (`score > best_length`, so the first of
equal scores wins). -/
def bestDiv (divs : List String) : Option (List Char) :=
  (divs.foldl
    (fun (b : Option (List Char) × Nat) t =>
      match divScore t.toList with
      | some sc => if b.2 < sc then (some t.toList, sc) else b
      | none => b)
    (none, 0)).1

/-- `about_start` (lines 85-90): index one past the first short line
containing an about keyword. -/
def aboutStart (lines : List (List Char)) : Option Nat :=
  (lines.findIdx? (fun l =>
    aboutKws.any (fun k => isSub k (pyStrip (lc l))) && decide (l.length < 50))).map (· + 1)

/-- A line that triggers the stop test of lines 97-98.  Reaching it
evaluates `line_lower.startswith(keyword)` with `keyword` unbound (the
generator-expression variable does not leak in Python 3), so the
resulting `NameError` aborts the whole extraction via the outermost
`except`, which returns `None`. -/
def divStopLine (l : List Char) : Bool :=
  divStopKws.any (fun k => isSub k (pyStrip (lc l))) && decide ((pyStrip l).length < 80)

/-- Processing of the best div (lines 82-108).  The result is the value
`extract_description_from_page` returns (this part of the source always
returns; `none` is the `NameError` path). -/
def divProcess (best : List Char) : Option String :=
  let lines := splitNl best
  match aboutStart lines with
  | none => some (pyStrip best).asString
  | some k =>
    let tail := lines.drop k
    if tail.any divStopLine then none
    else if tail.isEmpty then some (pyStrip best).asString
    else
      let r := stripLeadLabel ["à propos".toList, "a propos".toList] 8
        (pyStrip (joinL ['\n'] tail))
      if 200 < r.length then some (pyStrip r).asString
      else some (pyStrip best).asString

/-- `some out` means the cascade stops here with overall result `out`;
`none` means no div qualified and the cascade continues. -/
def divStage (divs : List String) : Option (Option String) :=
  (bestDiv divs).map divProcess

/-! ### JSON-LD stage (lines 110-137) -/

def ldDesc (desc : Option String) : Option String :=
  match desc with
  | some d => if d ≠ "" ∧ 50 < d.length then some d else none
  | none => none

def ldArr : List (Option String × Option String) → Option String
  | [] => none
  | (typ, desc) :: rest =>
    if typ = some "Event" then
      match ldDesc desc with
      | some d => some d
      | none => ldArr rest
    else ldArr rest

def ldStage : List LdJson → Option String
  | [] => none
  | b :: bs =>
    match b with
    | .dict _typ desc =>
      -- the `@type == 'Event'` branch re-tests the same description and
      -- is therefore subsumed by the first test
      match ldDesc desc with
      | some d => some d
      | none => ldStage bs
    | .arr items =>
      match ldArr items with
      | some d => some d
      | none => ldStage bs
    | .other => ldStage bs

/-! ### Selector-based stage (lines 139-166) -/

/-- Filter of lines 156-163 on one element text (already stripped). -/
def selAccept (text : List Char) : Bool :=
  let tl := lc text
  !text.isEmpty && decide (80 < text.length) && decide (text.length < 2000) &&
    !(isPre "http".toList text) &&
    !(isSub "billet".toList tl) && !(isSub "ticket".toList tl) &&
    !(isSub "cookie".toList tl) && !(isSub "privacy".toList tl) &&
    !(isSub "november".toList (tl.take 50))

def selStage (hits : List (List String)) : Option String :=
  firstSome
    (fun (s : String) =>
      let text := pyStrip s.toList
      if selAccept text then some text.asString else none)
    hits.flatten

/-! ### Section stage (lines 168-200) -/

def secCtxKws : List (List Char) :=
  ["club".toList, "venue".toList, "paris".toList, "rue".toList,
   "nov".toList, "dec".toList, "dj".toList, "music".toList]

def firstIsDigit (l : List Char) : Bool :=
  match l with
  | c :: _ => c.isDigit
  | [] => false

def secLineOk (l : List Char) : Bool :=
  !(firstIsDigit l) && !(l.contains '€') &&
    !(isSub "billet".toList (lc l)) && !(isSub "ticket".toList (lc l)) &&
    decide (20 < l.length)

def secStep (s : String) : Option String :=
  let text := pyStrip s.toList
  let tl := lc text
  if !text.isEmpty && decide (100 < text.length) && decide (text.length < 1000) &&
      !(isSub "discover upcoming events".toList tl) &&
      !(isSub "billet".toList (tl.take 50)) && !(isPre "http".toList text) then
    if secCtxKws.any (fun k => isSub k tl) then
      let lines := ((splitNl text).map pyStrip).filter (fun l => !l.isEmpty)
      let dls := (lines.filter secLineOk).take 3
      if dls.isEmpty then none
      else
        let combined := joinL [' '] dls
        if 50 < combined.length then some combined.asString else none
    else none
  else none

def secStage (sections : List String) : Option String :=
  firstSome secStep sections

/-! ### Paragraph stage (lines 202-226) -/

/-- `re.match(r'^\d{1,2}\s+(nov|dec|jan)', tl)`. -/
def wsThenMonthKw (s : List Char) : Bool :=
  match s with
  | c :: cs =>
    isWs c &&
      (let r := cs.dropWhile isWs
       isPre "nov".toList r || isPre "dec".toList r || isPre "jan".toList r)
  | [] => false

def dateStart (tl : List Char) : Bool :=
  match tl with
  | a :: rest =>
    a.isDigit &&
      (match rest with
       | b :: r2 => (b.isDigit && wsThenMonthKw r2) || wsThenMonthKw rest
       | [] => false)
  | [] => false

def paraOk (t : List Char) : Bool :=
  let tl := lc t
  !t.isEmpty && decide (50 < t.length) && decide (t.length < 500) &&
    !(isPre "http".toList t) &&
    !(isSub "billet".toList (tl.take 30)) && !(isSub "ticket".toList (tl.take 30)) &&
    !(isSub "discover upcoming".toList tl) && !(dateStart tl)

def paraStage : Option Element → Option String
  | none => none
  | some el =>
    let texts := (el.paragraphs.map (fun p => pyStrip p.toList)).filter paraOk
    if texts.isEmpty then none
    else
      let combined := joinL [' '] (texts.take 3)
      if 80 < combined.length then some combined.asString else none

/-! ### Line-scan stage (lines 228-267) -/

def lineSkipKws : List (List Char) :=
  ["cookie".toList, "consent".toList, "privacy".toList, "billet".toList,
   "ticket".toList, "november".toList, "nov".toList, "décembre".toList,
   "december".toList]

def lineScanOk (l : List Char) : Bool :=
  let tl := lc l
  !(lineSkipKws.any (fun k => isSub k (tl.take 50))) &&
    !(isSub "discover upcoming events".toList tl) &&
    !(isSub "buy your tickets".toList tl) &&
    decide (50 < l.length) && decide (l.length < 400) &&
    !(isPre "http".toList l) && !(l.contains '€') &&
    !(firstIsDigit l) && !(dateStart tl)

/-- With no main-content element the source calls `page.inner_text()`
without the mandatory selector argument; the `TypeError` is caught by the
strategy try/except and the function falls through to `return None`. -/
def lineScanStage : Option Element → Option String
  | none => none
  | some el =>
    let lines := ((splitNl el.innerText.toList).map pyStrip).filter (fun l => !l.isEmpty)
    let ml := (lines.filter lineScanOk).take 3
    if ml.isEmpty then none
    else
      let combined := joinL [' '] ml
      if 80 < combined.length then some combined.asString else none

def extract_description_from_page (pv : PageView) : Option String :=
  match strategy0 pv.bodyText with
  | some r => some r
  | none =>
  match divStage pv.divTexts with
  | some out => out
  | none =>
  match ldStage pv.ldBlocks with
  | some r => some r
  | none =>
  match selStage pv.selectorHits with
  | some r => some r
  | none =>
  match secStage pv.sectionTexts with
  | some r => some r
  | none =>
  match paraStage pv.mainContent with
  | some r => some r
  | none => lineScanStage pv.mainContent2


/-! ## Spec-side definition for the identity-resolver claim -/

/-- The decision rule of `events_match` exactly as the specification
words it: names non-empty after normalization and similar (substring
either way, or word-set overlap at least one half), and in addition the
date fields non-empty and equal, or the normalized venue names non-empty
and equal. -/
def sameEventSpec (a b : Event) : Prop :=
  (normalize_event_name a.name ≠ "" ∧ normalize_event_name b.name ≠ "" ∧
    (isSub (normalize_event_name a.name).toList (normalize_event_name b.name).toList = true ∨
      isSub (normalize_event_name b.name).toList (normalize_event_name a.name).toList = true ∨
      max ((words (normalize_event_name a.name).toList).dedup).length
          ((words (normalize_event_name b.name).toList).dedup).length ≤
        2 * (((words (normalize_event_name a.name).toList).dedup).filter
              (fun w => w ∈ (words (normalize_event_name b.name).toList).dedup)).length)) ∧
  ((a.date ≠ "" ∧ b.date ≠ "" ∧ a.date = b.date) ∨
    (normalize_event_name a.venueName ≠ "" ∧ normalize_event_name b.venueName ≠ "" ∧
      normalize_event_name a.venueName = normalize_event_name b.venueName))

/-! ## Concrete instances used by the theorems -/

def eventC1 : Event := { name := "techno night" }

def eventC5 : Event := { name := "!!!", date := "2025-11-23" }

def cookieText : String :=
  "This venue shows a cookie consent banner before anything else loads, and the page text continues with details about the party, the rooms of music, the light installations, and the friendly crowd of regulars plus newcomers."

def cookiePage : PageView :=
  { bodyText := "About: " ++ cookieText
    divTexts := []
    ldBlocks := []
    selectorHits := []
    sectionTexts := []
    mainContent := none
    mainContent2 := none }

def selectorText : String :=
  "The warehouse gathers dancers from across the city for a long night of techno with resident selectors."

def lineupOnlyRaw : String := "lineup: Alice Bravo Charlie Delta Echo"

/-! ## Lemmas about the identity resolver -/

lemma isPre_refl : ∀ l : List Char, isPre l l = true
  | [] => rfl
  | a :: as => by simp [isPre, isPre_refl as]

lemma isSub_refl : ∀ l : List Char, isSub l l = true
  | [] => rfl
  | c :: cs => by simp [isSub, isPre_refl]

lemma nameSimilar_refl {n : String} (h : n ≠ "") : nameSimilar n n = true := by
  simp [nameSimilar, h, isSub_refl]

lemma dateEq_refl {d : String} (h : d ≠ "") : dateEq d d = true := by
  simp [dateEq, h]

lemma venueEq_refl {v : String} (h : v ≠ "") : venueEq v v = true := by
  simp [venueEq, h]

lemma dateEq_iff (d1 d2 : String) :
    dateEq d1 d2 = true ↔ d1 ≠ "" ∧ d2 ≠ "" ∧ d1 = d2 := by
  by_cases h1 : d1 = "" <;> by_cases h2 : d2 = "" <;> simp [dateEq, h1, h2]

lemma venueEq_iff (v1 v2 : String) :
    venueEq v1 v2 = true ↔ v1 ≠ "" ∧ v2 ≠ "" ∧ v1 = v2 := by
  by_cases h1 : v1 = "" <;> by_cases h2 : v2 = "" <;> simp [venueEq, h1, h2]

lemma dateEq_comm (d1 d2 : String) : dateEq d1 d2 = dateEq d2 d1 := by
  by_cases h1 : d1 = "" <;> by_cases h2 : d2 = "" <;> simp [dateEq, h1, h2]
  exact eq_comm

lemma venueEq_comm (v1 v2 : String) : venueEq v1 v2 = venueEq v2 v1 := by
  by_cases h1 : v1 = "" <;> by_cases h2 : v2 = "" <;> simp [venueEq, h1, h2]
  exact eq_comm

lemma interLen_comm (l1 l2 : List (List Char)) :
    (l1.dedup.filter (fun w => w ∈ l2.dedup)).length =
      (l2.dedup.filter (fun w => w ∈ l1.dedup)).length := by
  have key : ∀ a b : List (List Char),
      (a.dedup.filter (fun w => w ∈ b.dedup)).length = (a.toFinset ∩ b.toFinset).card := by
    intro a b
    rw [← List.toFinset_card_of_nodup ((List.nodup_dedup a).filter _)]
    congr 1
    ext w
    simp [List.mem_filter, List.mem_dedup]
  rw [key, key, Finset.inter_comm]

lemma nameSimilar_comm (n1 n2 : String) : nameSimilar n1 n2 = nameSimilar n2 n1 := by
  by_cases h1 : n1 = ""
  · by_cases h2 : n2 = "" <;> simp [nameSimilar, h1, h2]
  · by_cases h2 : n2 = ""
    · simp [nameSimilar, h1, h2]
    · simp only [nameSimilar, h1, h2, ne_eq, not_false_eq_true, and_self, if_true]
      rw [Bool.or_comm]
      by_cases g1 : (words n1.toList).dedup = [] <;>
        by_cases g2 : (words n2.toList).dedup = [] <;>
          simp only [g1, g2, ne_eq, not_true_eq_false, not_false_eq_true,
            and_self, and_true, and_false, false_and, if_false, if_true]
      rw [interLen_comm (words n1.toList) (words n2.toList),
        Nat.max_comm ((words n1.toList).dedup).length ((words n2.toList).dedup).length]

/-! ## Tokenization facts for the normalized names -/

lemma wordsAux_ne_of_cur : ∀ (cs cur : List Char), cur ≠ [] → wordsAux cs cur ≠ []
  | [], cur, h => by simp [wordsAux, h]
  | c :: cs, cur, h => by
    by_cases hw : isWs c = true
    · simp [wordsAux, hw, h]
    · simp only [wordsAux, hw, if_false, Bool.false_eq_true]
      exact wordsAux_ne_of_cur cs (c :: cur) (by simp)

lemma wordsAux_token : ∀ (cs cur : List Char), (∀ c ∈ cur, isWs c = false) →
    ∀ t ∈ wordsAux cs cur, t ≠ [] ∧ ∀ c ∈ t, isWs c = false
  | [], cur, hcur => by
    by_cases h : cur.isEmpty <;> simp only [wordsAux, h, if_true, if_false]
    · intro t ht; cases ht
    · intro t ht
      rcases List.mem_singleton.mp ht with rfl
      refine ⟨by simpa [List.isEmpty_iff] using h, ?_⟩
      intro c hc; exact hcur c (List.mem_reverse.mp hc)
  | c :: cs, cur, hcur => by
    by_cases hw : isWs c = true
    · by_cases hc : cur.isEmpty <;> simp only [wordsAux, hw, hc, if_true, if_false]
      · exact wordsAux_token cs [] (by simp)
      · intro t ht
        rcases List.mem_cons.mp ht with rfl | ht'
        · refine ⟨by simpa [List.isEmpty_iff] using hc, ?_⟩
          intro d hd; exact hcur d (List.mem_reverse.mp hd)
        · exact wordsAux_token cs [] (by simp) t ht'
    · simp only [wordsAux, hw, if_false, Bool.false_eq_true]
      refine wordsAux_token cs (c :: cur) ?_
      intro d hd
      rcases List.mem_cons.mp hd with rfl | hd'
      · simpa using hw
      · exact hcur d hd'

lemma words_token {cs : List Char} {t : List Char} (h : t ∈ words cs) :
    t ≠ [] ∧ ∀ c ∈ t, isWs c = false :=
  wordsAux_token cs [] (by simp) t h

lemma toList_asString (l : List Char) : (List.asString l).toList = l := rfl

lemma asString_ne_empty {l : List Char} (h : List.asString l ≠ "") : l ≠ [] := by
  intro he; exact h (by rw [he]; rfl)

/-- A non-empty normalized name splits into at least one word: its join
starts with the head of a non-empty whitespace-free token. -/
lemma norm_words_ne {s : String} (h : normalize_event_name s ≠ "") :
    words (normalize_event_name s).toList ≠ [] := by
  unfold normalize_event_name at h ⊢
  rw [toList_asString]
  have hjoin : joinL [' '] (normTokens s) ≠ [] := asString_ne_empty h
  rcases htok : normTokens s with _ | ⟨t, ts⟩
  · rw [htok] at hjoin; exact absurd rfl hjoin
  · have ⟨htne, htws⟩ := @words_token ((lc s.toList).filter (fun c => isWordChar c || isWs c))
      t (by rw [show words _ = normTokens s from rfl, htok]; exact List.mem_cons_self t ts)
    rcases ht : t with _ | ⟨c, t'⟩
    · exact absurd ht htne
    · have hcw : isWs c = false := htws c (by rw [ht]; exact List.mem_cons_self c t')
      have hex : ∃ r, joinL [' '] ((c :: t') :: ts) = c :: r := by
        cases ts with
        | nil => exact ⟨t', by simp [joinL]⟩
        | cons u us => exact ⟨t' ++ ' ' :: joinL [' '] (u :: us), by simp [joinL]⟩
      obtain ⟨r, hr⟩ := hex
      rw [hr]
      simp only [words, wordsAux, hcw, if_false, Bool.false_eq_true]
      exact wordsAux_ne_of_cur r [c] (by simp)

lemma nameSimilar_iff_of_words {n1 n2 : String}
    (hw1 : n1 ≠ "" → words n1.toList ≠ []) (hw2 : n2 ≠ "" → words n2.toList ≠ []) :
    nameSimilar n1 n2 = true ↔
      n1 ≠ "" ∧ n2 ≠ "" ∧
        (isSub n1.toList n2.toList = true ∨ isSub n2.toList n1.toList = true ∨
          max ((words n1.toList).dedup).length ((words n2.toList).dedup).length ≤
            2 * (((words n1.toList).dedup).filter
                  (fun w => w ∈ (words n2.toList).dedup)).length) := by
  by_cases h1 : n1 = ""
  · simp [nameSimilar, h1]
  by_cases h2 : n2 = ""
  · simp [nameSimilar, h2]
  have hd1 : (words n1.toList).dedup ≠ [] := by
    simpa [List.dedup_eq_nil] using hw1 h1
  have hd2 : (words n2.toList).dedup ≠ [] := by
    simpa [List.dedup_eq_nil] using hw2 h2
  by_cases hs : (isSub n1.toList n2.toList || isSub n2.toList n1.toList) = true
  · have hL : nameSimilar n1 n2 = true := by
      unfold nameSimilar
      rw [if_pos ⟨h1, h2⟩, if_pos hs]
    refine iff_of_true hL ⟨h1, h2, ?_⟩
    rcases Bool.or_eq_true_iff.mp hs with ha | ha
    · exact Or.inl ha
    · exact Or.inr (Or.inl ha)
  · have hs1 : isSub n1.toList n2.toList = false := by
      rcases Bool.or_eq_false_iff.mp (Bool.not_eq_true _ |>.mp hs) with ⟨ha, _⟩; exact ha
    have hs2 : isSub n2.toList n1.toList = false := by
      rcases Bool.or_eq_false_iff.mp (Bool.not_eq_true _ |>.mp hs) with ⟨_, hb⟩; exact hb
    unfold nameSimilar
    rw [if_pos ⟨h1, h2⟩, if_neg hs, if_pos ⟨hd1, hd2⟩, decide_eq_true_eq]
    constructor
    · intro hle
      exact ⟨h1, h2, Or.inr (Or.inr hle)⟩
    · rintro ⟨-, -, hle | hle | hle⟩
      · rw [hs1] at hle; cases hle
      · rw [hs2] at hle; cases hle
      · exact hle

/-! ## Lemmas about the merge engine -/

lemma fillField_of_ne {ex : String} (nw : String) (h : ex ≠ "") :
    fillField ex nw = ex := by
  simp [fillField, h]

lemma fillField_self (x : String) : fillField x x = x := by
  by_cases h : x = "" <;> simp [fillField, h]

lemma fillField_fill (ex nw : String) : fillField (fillField ex nw) nw = fillField ex nw := by
  by_cases h : nw ≠ "" ∧ ex = ""
  · have h2 : ¬(nw ≠ "" ∧ nw = "") := fun hh => hh.1 hh.2
    simp [fillField, h, h2]
  · simp [fillField, h]

lemma updateEvent_self (n : Event) : updateEvent n n = n := by
  simp [updateEvent, fillField_self]

lemma updateEvent_update (e n : Event) :
    updateEvent (updateEvent e n) n = updateEvent e n := by
  simp [updateEvent, fillField_fill]

lemma nameSimilar_ne {x y : String} (h : nameSimilar x y = true) : x ≠ "" ∧ y ≠ "" := by
  by_cases g : x ≠ "" ∧ y ≠ ""
  · exact g
  · rw [nameSimilar, if_neg g] at h
    cases h

lemma normalize_ne {s : String} (h : normalize_event_name s ≠ "") : s ≠ "" := by
  intro he
  rw [he] at h
  exact h rfl

/-- A new record that matches an existing record still matches it after
the fill-missing update: the fields the match used were truthy on the
existing record, hence untouched, and a filled date can only copy the
new date itself. -/
lemma events_match_update {n e : Event} (h : events_match n e = true) :
    events_match n (updateEvent e n) = true := by
  unfold events_match at h ⊢
  rw [Bool.and_eq_true] at h
  obtain ⟨hn, hdv⟩ := h
  have hename : e.name ≠ "" := normalize_ne (nameSimilar_ne hn).2
  have hname : (updateEvent e n).name = e.name := fillField_of_ne n.name hename
  rw [hname, hn, Bool.true_and]
  rcases Bool.or_eq_true_iff.mp hdv with hd | hv
  · have hd' := (dateEq_iff _ _).mp hd
    have hdate : (updateEvent e n).date = e.date := fillField_of_ne n.date hd'.2.1
    rw [hdate, hd, Bool.true_or]
  · have hv' := (venueEq_iff _ _).mp hv
    have hvname : (updateEvent e n).venueName = e.venueName :=
      fillField_of_ne n.venueName (normalize_ne hv'.2.1)
    rw [hvname, hv, Bool.or_true]

lemma insertEvent_idem (n : Event) (h : events_match n n = true) :
    ∀ C : List Event, insertEvent n (insertEvent n C) = insertEvent n C := by
  intro C
  induction C with
  | nil => simp [insertEvent, h, updateEvent_self]
  | cons e rest ih =>
    by_cases hm : events_match n e = true
    · simp [insertEvent, hm, events_match_update hm, updateEvent_update]
    · have h1 : insertEvent n (e :: rest) = e :: insertEvent n rest := by
        simp [insertEvent, hm]
      have h2 : insertEvent n (e :: insertEvent n rest) =
          e :: insertEvent n (insertEvent n rest) := by
        simp [insertEvent, hm]
      rw [h1, h2, ih]

/-! ## Record extension and the merge decomposition -/

lemma getField_update (e n : Event) (f : EvField) :
    getField (updateEvent e n) f = fillField (getField e f) (getField n f) := by
  cases f <;> rfl

lemma extendsE_refl (e : Event) : ExtendsE e e := fun _ _ => rfl

lemma extendsE_update (e n : Event) : ExtendsE e (updateEvent e n) := by
  intro f hf
  rw [getField_update]
  exact fillField_of_ne _ hf

lemma extendsE_trans {a b c : Event} (h1 : ExtendsE a b) (h2 : ExtendsE b c) :
    ExtendsE a c := by
  intro f hf
  have hb := h1 f hf
  have hbne : getField b f ≠ "" := by rw [hb]; exact hf
  rw [h2 f hbne, hb]

lemma forall₂_extends_refl : ∀ l : List Event, List.Forall₂ ExtendsE l l
  | [] => List.Forall₂.nil
  | e :: rest => List.Forall₂.cons (extendsE_refl e) (forall₂_extends_refl rest)

lemma forall₂_extends_trans {a b c : List Event} (h1 : List.Forall₂ ExtendsE a b)
    (h2 : List.Forall₂ ExtendsE b c) : List.Forall₂ ExtendsE a c := by
  induction h1 generalizing c with
  | nil => cases h2; exact .nil
  | cons hab _ ih =>
    cases h2 with
    | cons hbc h2' => exact .cons (extendsE_trans hab hbc) (ih h2')

lemma forall₂_append_split {l1 l2 m : List Event}
    (h : List.Forall₂ ExtendsE (l1 ++ l2) m) :
    ∃ m1 m2, m = m1 ++ m2 ∧ List.Forall₂ ExtendsE l1 m1 ∧ List.Forall₂ ExtendsE l2 m2 := by
  induction l1 generalizing m with
  | nil => exact ⟨[], m, rfl, .nil, h⟩
  | cons e l1' ih =>
    cases h with
    | cons he h' =>
      obtain ⟨m1, m2, rfl, ha, hb⟩ := ih h'
      exact ⟨_ :: m1, m2, rfl, .cons he ha, hb⟩

lemma insertEvent_decomp (n : Event) : ∀ l : List Event,
    ∃ l' a, insertEvent n l = l' ++ a ∧ List.Forall₂ ExtendsE l l' ∧ (a = [] ∨ a = [n])
  | [] => ⟨[], [n], rfl, .nil, Or.inr rfl⟩
  | e :: rest => by
    by_cases hm : events_match n e = true
    · exact ⟨updateEvent e n :: rest, [], by simp [insertEvent, hm],
        .cons (extendsE_update e n) (forall₂_extends_refl rest), Or.inl rfl⟩
    · obtain ⟨l', a, heq, hf, ha⟩ := insertEvent_decomp n rest
      exact ⟨e :: l', a, by simp [insertEvent, hm, heq], .cons (extendsE_refl e) hf, ha⟩

lemma merge_events_cons (C : List Event) (n : Event) (rest : List Event) :
    merge_events C (n :: rest) = merge_events (insertEvent n C) rest := rfl

/-- Structure of a merge: the first `|C|` records extend the records of
`C` in order, and the appended suffix consists of records each extending
one record of a subsequence of `N`, in order. -/
lemma merge_decomp : ∀ (N C : List Event),
    ∃ M A B, merge_events C N = M ++ A ∧ List.Forall₂ ExtendsE C M ∧
      B.Sublist N ∧ List.Forall₂ ExtendsE B A
  | [], C => ⟨C, [], [], by simp [merge_events], forall₂_extends_refl C,
      List.nil_sublist [], .nil⟩
  | n :: rest, C => by
    obtain ⟨C1, a, heq, hf, ha⟩ := insertEvent_decomp n C
    obtain ⟨M', A', B', heq', hf', hsub', hext'⟩ := merge_decomp rest (insertEvent n C)
    rw [heq] at hf'
    obtain ⟨M1, M2, rfl, hfa, hfb⟩ := forall₂_append_split hf'
    rcases ha with rfl | rfl
    · cases hfb
      refine ⟨M1, A', B', ?_, forall₂_extends_trans hf hfa, hsub'.cons n, hext'⟩
      rw [merge_events_cons, heq']
      simp
    · cases hfb with
      | cons hm2 htail =>
        cases htail
        rename_i m2
        refine ⟨M1, m2 :: A', n :: B', ?_, forall₂_extends_trans hf hfa,
          hsub'.cons₂ n, .cons hm2 hext'⟩
        rw [merge_events_cons, heq']
        simp

lemma forall₂_extends_getD {l l' : List Event} (h : List.Forall₂ ExtendsE l l') :
    ∀ {i : Nat}, i < l.length → ExtendsE (l.getD i default) (l'.getD i default) := by
  induction h with
  | nil => intro i hi; simp at hi
  | cons hab _ ih =>
    intro i hi
    cases i with
    | zero => simpa [List.getD_cons_zero] using hab
    | succ k =>
      simp only [List.getD_cons_succ]
      exact ih (by simpa using hi)

/-! ## Lemmas about the description formatter -/

lemma truncateTo_length_le {limit cut : Nat} (h : cut + 3 ≤ limit) (cs : List Char) :
    (truncateTo limit cut cs).length ≤ limit := by
  unfold truncateTo
  split
  · rw [List.length_append, List.length_take]
    have h3 : ("...".toList).length = 3 := rfl
    have hmin : min cut cs.length ≤ cut := Nat.min_le_left _ _
    omega
  · omega

lemma dropWhile_head_not {p : Char → Bool} :
    ∀ {l : List Char} {c : Char} {r : List Char}, l.dropWhile p = c :: r → p c = false := by
  intro l
  induction l with
  | nil => intro c r h; cases h
  | cons a l ih =>
    intro c r h
    by_cases ha : p a = true
    · rw [List.dropWhile_cons, if_pos ha] at h
      exact ih h
    · rw [List.dropWhile_cons, if_neg ha] at h
      cases h
      simpa using ha

lemma stripRight_head : ∀ {l : List Char} {c : Char} {r : List Char},
    stripRight l = c :: r → ∃ r', l = c :: r' := by
  intro l
  induction l with
  | nil => intro c r h; cases h
  | cons a l _ =>
    intro c r h
    rw [stripRight] at h
    rcases hs : stripRight l with _ | ⟨x, xs⟩ <;> rw [hs] at h
    · by_cases ha : isWs a = true
      · rw [if_pos ha] at h; cases h
      · rw [if_neg ha] at h; cases h; exact ⟨l, rfl⟩
    · cases h; exact ⟨l, rfl⟩

/-- The head of a non-empty stripped string is not whitespace. -/
lemma pyStrip_head {l : List Char} {c : Char} {r : List Char}
    (h : pyStrip l = c :: r) : isWs c = false := by
  unfold pyStrip at h
  obtain ⟨r', hr'⟩ := stripRight_head h
  exact dropWhile_head_not hr'

lemma mem_dropWhile_of_not {c : Char} (hc : isWs c = false) :
    ∀ {l : List Char}, c ∈ l → c ∈ l.dropWhile isWs := by
  intro l h
  induction l with
  | nil => cases h
  | cons a l ih =>
    by_cases ha : isWs a = true
    · rw [List.dropWhile_cons, if_pos ha]
      rcases List.mem_cons.mp h with rfl | h'
      · rw [ha] at hc; cases hc
      · exact ih h'
    · rw [List.dropWhile_cons, if_neg ha]
      exact h

lemma mem_stripRight {c : Char} (hc : isWs c = false) :
    ∀ {l : List Char}, c ∈ l → c ∈ stripRight l := by
  intro l h
  induction l with
  | nil => cases h
  | cons a l ih =>
    rw [stripRight]
    rcases hs : stripRight l with _ | ⟨x, xs⟩
    · rcases List.mem_cons.mp h with rfl | h'
      · have : ¬(isWs c = true) := by simp [hc]
        rw [if_neg this]
        exact List.mem_singleton.mpr rfl
      · have := ih h'
        rw [hs] at this
        cases this
    · rcases List.mem_cons.mp h with rfl | h'
      · exact List.mem_cons_self _ _
      · have := ih h'
        rw [hs] at this
        exact List.mem_cons_of_mem _ this

lemma mem_pyStrip {c : Char} (hc : isWs c = false) {l : List Char} (h : c ∈ l) :
    c ∈ pyStrip l :=
  mem_stripRight hc (mem_dropWhile_of_not hc h)

lemma pyStrip_ne_nil {c : Char} (hc : isWs c = false) {l : List Char} (h : c ∈ l) :
    pyStrip l ≠ [] :=
  List.ne_nil_of_mem (mem_pyStrip hc h)

lemma joinL_nil_cons (t : List Char) (ts : List (List Char)) :
    joinL [] (t :: ts) = t ++ joinL [] ts := by
  cases ts <;> simp [joinL]

lemma mem_joinL_nil {c : Char} : ∀ {parts : List (List Char)} {p : List Char},
    p ∈ parts → c ∈ p → c ∈ joinL [] parts := by
  intro parts
  induction parts with
  | nil => intro p hp; cases hp
  | cons t ts ih =>
    intro p hp hc
    rw [joinL_nil_cons, List.mem_append]
    rcases List.mem_cons.mp hp with rfl | hp'
    · exact Or.inl hc
    · exact Or.inr (ih hp' hc)

/-- A sentence produced by `sentencesOf` is non-empty and starts with a
non-whitespace character. -/
lemma sentencesOf_mem {cs s : List Char} (h : s ∈ sentencesOf cs) :
    ∃ c r, s = c :: r ∧ isWs c = false := by
  unfold sentencesOf at h
  obtain ⟨piece, hpiece, rfl⟩ := List.mem_map.mp h
  have hq := (List.mem_filter.mp hpiece).2
  rw [Bool.and_eq_true] at hq
  have hne : pyStrip piece ≠ [] := by
    simpa [List.isEmpty_iff] using hq.1
  rcases hs : pyStrip piece with _ | ⟨c, r⟩
  · exact absurd hs hne
  · exact ⟨c, r, rfl, pyStrip_head hs⟩

lemma joinL_head {sep : List Char} {c : Char} {t' : List Char} (ts : List (List Char)) :
    ∃ r, joinL sep ((c :: t') :: ts) = c :: r := by
  cases ts with
  | nil => exact ⟨t', by simp [joinL]⟩
  | cons u us => exact ⟨t' ++ sep ++ joinL sep (u :: us), by simp [joinL]⟩

lemma truncateTo_head {limit cut : Nat} (hcut : 0 < cut) {c : Char} (r : List Char) :
    ∃ r', truncateTo limit cut (c :: r) = c :: r' := by
  unfold truncateTo
  split
  · rcases cut with _ | k
    · omega
    · exact ⟨r.take k ++ "...".toList, by simp⟩
  · exact ⟨r, rfl⟩

/-- A non-empty formatted main summary starts with a non-whitespace
character (the head of its first sentence). -/
lemma mainTextOf_head {tr : String → Option String} {raw : String}
    (h : mainTextOf tr raw ≠ []) :
    ∃ c r, mainTextOf tr raw = c :: r ∧ isWs c = false := by
  unfold mainTextOf at h ⊢
  rcases hsents : sentencesOf (mainDescOf tr raw) with _ | ⟨s1, rest⟩
  · rw [hsents] at h; simp at h
  · obtain ⟨c, r, hs1, hcw⟩ := @sentencesOf_mem (mainDescOf tr raw) s1
      (by rw [hsents]; exact List.mem_cons_self s1 rest)
    subst hs1
    simp only [List.isEmpty_cons, if_false, Bool.false_eq_true, List.take_succ_cons]
    obtain ⟨r1, hr1⟩ := @joinL_head ('.' :: [' ']) c r (rest.take 2)
    rw [hr1]
    obtain ⟨r', hr'⟩ := @truncateTo_head 300 297 (by omega) c r1
    exact ⟨c, r', hr', hcw⟩

/-- Every block the formatter emits contains a non-whitespace character. -/
lemma partsOf_nonws {tr : String → Option String} {raw : String} {p : List Char}
    (hp : p ∈ partsOf tr raw) : ∃ c, c ∈ p ∧ isWs c = false := by
  unfold partsOf at hp
  rcases List.mem_append.mp hp with hp1 | hdress
  · rcases List.mem_append.mp hp1 with hmain | hlineup
    · unfold mainPartOf at hmain
      by_cases hmt : (mainTextOf tr raw).isEmpty = true
      · rw [if_pos hmt] at hmain; cases hmain
      · rw [if_neg hmt] at hmain
        rcases List.mem_singleton.mp hmain with rfl
        obtain ⟨c, r, hcr, hcw⟩ := @mainTextOf_head tr raw
          (by simpa [List.isEmpty_iff] using hmt)
        exact ⟨c, by rw [hcr]; exact List.mem_cons_self c r, hcw⟩
    · unfold lineupPartOf at hlineup
      rcases hlm : lineupTextOf tr raw with _ | t
      · rw [hlm] at hlineup; cases hlineup
      · rw [hlm] at hlineup
        dsimp only [] at hlineup
        by_cases hacc : (!t.isEmpty && decide (20 < t.length) && decide (t.length < 500)) = true
        · rw [if_pos hacc] at hlineup
          rcases List.mem_singleton.mp hlineup with rfl
          refine ⟨'🎧', List.mem_append.mpr (Or.inl ?_), by decide⟩
          decide
        · rw [if_neg hacc] at hlineup; cases hlineup
  · unfold dressPartOf at hdress
    by_cases hdt : (dressTextOf tr raw).isEmpty = true
    · rw [if_pos hdt] at hdress; cases hdress
    · rw [if_neg hdt] at hdress
      rcases List.mem_singleton.mp hdress with rfl
      refine ⟨'👔', List.mem_append.mpr (Or.inl ?_), by decide⟩
      decide

lemma pyStrip_joinL_parts_eq_nil_iff {tr : String → Option String} {raw : String} :
    pyStrip (joinL [] (partsOf tr raw)) = [] ↔ partsOf tr raw = [] := by
  constructor
  · intro h
    rcases hparts : partsOf tr raw with _ | ⟨p, ps⟩
    · rfl
    · exfalso
      obtain ⟨c, hc, hcw⟩ := @partsOf_nonws tr raw
        p (by rw [hparts]; exact List.mem_cons_self p ps)
      have hmem : c ∈ joinL [] (partsOf tr raw) :=
        mem_joinL_nil (by rw [hparts]; exact List.mem_cons_self p ps) hc
      exact pyStrip_ne_nil hcw hmem h
  · intro h
    rw [h]
    rfl

/-! ## Lemmas about the extraction cascade -/

lemma firstSome_eq_some {α β : Type} {f : α → Option β} {b : β} :
    ∀ {l : List α}, firstSome f l = some b → ∃ a ∈ l, f a = some b := by
  intro l
  induction l with
  | nil => intro h; cases h
  | cons a as ih =>
    intro h
    rcases hf : f a with _ | b'
    · simp only [firstSome, hf] at h
      obtain ⟨x, hx, hfx⟩ := ih h
      exact ⟨x, List.mem_cons_of_mem _ hx, hfx⟩
    · simp only [firstSome, hf] at h
      cases h
      exact ⟨a, List.mem_cons_self _ _, hf⟩

/-! # Claim theorems -/

/-- C1, counterexample.  Merging the same batch twice is not idempotent:
a new record with neither date nor venue never matches any record
(`events_match` needs a date or venue agreement), in particular not the
copy of itself appended by the first merge, so the second merge appends
a duplicate. -/
theorem merge_reMerge_duplicates :
    merge_events (merge_events [] [eventC1]) [eventC1] ≠ merge_events [] [eventC1] := by
  decide

/-- C1, amended.  For a batch of a single record that matches itself
(normalized name non-empty and date or venue set), re-merging the batch
into the merged catalog produces no further change. -/
theorem merge_idempotent_singleton_selfmatch (C : List Event) (n : Event)
    (h : events_match n n = true) :
    merge_events (merge_events C [n]) [n] = merge_events C [n] := by
  simp only [merge_events, List.foldl_cons, List.foldl_nil]
  exact insertEvent_idem n h C

/-- C1, witness for the amended theorem at a concrete input. -/
theorem merge_idempotent_singleton_selfmatch_witness :
    events_match { name := "party", date := "2025-12-01" }
        { name := "party", date := "2025-12-01" } = true ∧
      merge_events (merge_events [] [{ name := "party", date := "2025-12-01" }])
          [{ name := "party", date := "2025-12-01" }] =
        merge_events [] [{ name := "party", date := "2025-12-01" }] :=
  ⟨by decide, merge_idempotent_singleton_selfmatch [] _ (by decide)⟩

/-- C2.  `events_match` returns true exactly under the specified
decision rule: both names non-empty after normalization and similar
(substring either way, or word-set overlap of at least one half), and in
addition equal non-empty dates or equal non-empty normalized venues. -/
theorem events_match_iff_spec (a b : Event) :
    events_match a b = true ↔ sameEventSpec a b := by
  unfold events_match sameEventSpec
  rw [Bool.and_eq_true, Bool.or_eq_true]
  rw [nameSimilar_iff_of_words (fun h => norm_words_ne h) (fun h => norm_words_ne h),
    dateEq_iff, venueEq_iff]

/-- C3.  A field that is set on an existing record before the merge has
exactly the same value on the corresponding record afterwards: the
fill-missing update never overwrites a truthy field. -/
theorem merge_preserves_set_fields (C N : List Event) (i : Nat) (f : EvField)
    (hi : i < C.length) (hset : getField (C.getD i default) f ≠ "") :
    getField ((merge_events C N).getD i default) f = getField (C.getD i default) f := by
  obtain ⟨M, A, B, heq, hf, -, -⟩ := merge_decomp N C
  have hlen := hf.length_eq
  rw [heq, List.getD_append _ _ _ _ (by omega)]
  exact forall₂_extends_getD hf hi f hset

/-- C3, witness at a concrete catalog, batch, index and field. -/
theorem merge_preserves_set_fields_witness :
    0 < ([{ name := "x", date := "2025-01-01" }] : List Event).length ∧
      getField (([{ name := "x", date := "2025-01-01" }] : List Event).getD 0 default)
          .date ≠ "" ∧
      getField ((merge_events [{ name := "x", date := "2025-01-01" }]
            [{ name := "x", date := "2025-01-01", price := "5" }]).getD 0 default) .date =
        getField (([{ name := "x", date := "2025-01-01" }] : List Event).getD 0 default)
          .date :=
  ⟨by decide, by decide,
    merge_preserves_set_fields [{ name := "x", date := "2025-01-01" }]
      [{ name := "x", date := "2025-01-01", price := "5" }] 0 .date (by decide) (by decide)⟩

/-- C4.  The date parser meets the specified contract at the reference
date 2025-11-19: the tomorrow keyword yields the next day, a day with a
French month name yields that date in the current year, a month/day
combination already past rolls the year forward, and an invalid
combination (day 31 in the 30-day November) yields `none`. -/
theorem parse_date_from_section_spec_examples :
    parse_date_from_section ⟨2025, 11, 19⟩ "demain" = some "2025-11-20" ∧
      parse_date_from_section ⟨2025, 11, 19⟩ "ven. 21 novembre" = some "2025-11-21" ∧
      parse_date_from_section ⟨2025, 11, 19⟩ "5 janvier" = some "2026-01-05" ∧
      parse_date_from_section ⟨2025, 11, 19⟩ "31 novembre" = none := by
  refine ⟨by decide, by decide, by decide, by decide⟩

/-- C5, counterexample.  Reflexivity fails for a record whose date is
set but whose name normalizes to the empty string: name similarity
requires both normalized names to be non-empty. -/
theorem events_match_not_reflexive : events_match eventC5 eventC5 = false := by
  decide

/-- C5, amended.  `events_match e e` holds whenever the normalized name
of `e` is non-empty and its date is set or its normalized venue name is
non-empty. -/
theorem events_match_refl_of_normalized (e : Event)
    (h1 : normalize_event_name e.name ≠ "")
    (h2 : e.date ≠ "" ∨ normalize_event_name e.venueName ≠ "") :
    events_match e e = true := by
  unfold events_match
  rw [nameSimilar_refl h1, Bool.true_and]
  rcases h2 with h | h
  · rw [dateEq_refl h, Bool.true_or]
  · rw [venueEq_refl h, Bool.or_true]

/-- C5, witness for the amended theorem. -/
theorem events_match_refl_of_normalized_witness :
    normalize_event_name (Event.name { name := "bbb", date := "2025-11-23" }) ≠ "" ∧
      events_match { name := "bbb", date := "2025-11-23" }
        { name := "bbb", date := "2025-11-23" } = true :=
  ⟨by decide, events_match_refl_of_normalized _ (by decide) (Or.inl (by decide))⟩

/-- C6.  The formatted main summary never exceeds 300 characters and the
formatted dress-code text never exceeds 200 characters (ellipsis
included), for every input and every behaviour of the translator. -/
theorem format_length_bounds (tr : String → Option String) (raw : String) :
    (mainTextOf tr raw).length ≤ 300 ∧ (dressTextOf tr raw).length ≤ 200 := by
  constructor
  · unfold mainTextOf
    split
    · simp
    · exact truncateTo_length_le (by omega) _
  · unfold dressTextOf
    rcases dressMatchOf tr raw with _ | m
    · simp
    · dsimp only
      split
      · simp
      · exact truncateTo_length_le (by omega) _

/-- C7, counterexample.  A description consisting only of a lineup
section has an empty main summary, yet the formatter returns the lineup
block rather than `none`. -/
theorem format_lineup_without_summary :
    mainTextOf some lineupOnlyRaw = [] ∧
      parse_and_format_description some lineupOnlyRaw ≠ none := by
  refine ⟨by decide, by decide⟩

/-- C7, amended.  The formatter returns `none` exactly when the input is
empty or no block at all was produced (main summary, lineup and
dress-code all empty); otherwise it returns the stripped concatenation
of the produced blocks — even when the main summary itself is empty. -/
theorem format_result_characterization (tr : String → Option String) (raw : String) :
    parse_and_format_description tr raw =
      (if raw = "" ∨ partsOf tr raw = [] then none
       else some (pyStrip (joinL [] (partsOf tr raw))).asString) := by
  unfold parse_and_format_description
  by_cases hr : raw = ""
  · simp [hr]
  · rw [if_neg hr]
    by_cases hp : partsOf tr raw = []
    · have hres : (pyStrip (joinL [] (partsOf tr raw))).isEmpty = true := by
        rw [hp]; rfl
      rw [if_pos hres, if_pos (Or.inr hp)]
    · have hres : ¬((pyStrip (joinL [] (partsOf tr raw))).isEmpty = true) := by
        rw [List.isEmpty_iff]
        exact fun h => hp (pyStrip_joinL_parts_eq_nil_iff.mp h)
      have hcond : ¬(raw = "" ∨ partsOf tr raw = []) := by
        rintro (h | h)
        · exact hr h
        · exact hp h
      rw [if_neg hres, if_neg hcond]

/-- C8, counterexample.  The labeled-section strategy (strategy 0)
applies no forbidden-keyword filter: a page whose body text is an
`About:` section containing the word "cookie" has that text accepted and
returned as the description. -/
theorem extract_accepts_cookie_text :
    extract_description_from_page cookiePage = some cookieText ∧
      isSub "cookie".toList (lc cookieText.toList) = true := by
  refine ⟨?_, by decide⟩
  set_option maxRecDepth 10000 in decide

/-- C8, amended.  The selector-based strategy does reject every
candidate containing "cookie": whatever text it accepts is cookie-free.
(The labeled-section strategy applies no such filter, see the
counterexample.) -/
theorem selector_strategy_rejects_cookie {hits : List (List String)} {s : String}
    (h : selStage hits = some s) :
    isSub "cookie".toList (lc s.toList) = false := by
  unfold selStage at h
  obtain ⟨t, _, hf⟩ := firstSome_eq_some h
  dsimp only at hf
  by_cases hacc : selAccept (pyStrip t.toList) = true
  · rw [if_pos hacc] at hf
    cases hf
    rw [toList_asString]
    unfold selAccept at hacc
    simp only [Bool.and_eq_true, Bool.not_eq_true'] at hacc
    exact hacc.1.1.2
  · rw [if_neg hacc] at hf
    cases hf

/-- C8, witness for the amended theorem: a clean selector hit is
accepted and is cookie-free. -/
theorem selector_strategy_rejects_cookie_witness :
    isSub "cookie".toList (lc selectorText.toList) = false :=
  @selector_strategy_rejects_cookie [[selectorText]] selectorText
    (by decide)

/-- C9.  `events_match` is symmetric: every ingredient of the decision
(substring either way, word-set overlap, date equality, venue equality)
is symmetric in the two records. -/
theorem events_match_symm (a b : Event) : events_match a b = events_match b a := by
  unfold events_match
  rw [nameSimilar_comm, dateEq_comm, venueEq_comm]

/-- C10.  A merge never removes or reorders existing records: the merged
catalog is the old catalog (each record possibly extended by filled-in
fields, `ExtendsE`) followed by a suffix of appended records, each
extending one record of a subsequence of the batch, in batch order. -/
theorem merge_preserves_catalog_structure (C N : List Event) :
    C.length ≤ (merge_events C N).length ∧
      ∃ M A B, merge_events C N = M ++ A ∧ List.Forall₂ ExtendsE C M ∧
        B.Sublist N ∧ List.Forall₂ ExtendsE B A := by
  obtain ⟨M, A, B, heq, hf, hsub, hext⟩ := merge_decomp N C
  refine ⟨?_, M, A, B, heq, hf, hsub, hext⟩
  rw [heq, List.length_append, hf.length_eq]
  omega
